import Mathlib

/-!
# Verification of the kapton_daq acquisition engine

A shallow embedding of `src/daq.py` (a single-file data-acquisition script)
and proofs of the specification's claims about it.

Modelling conventions:
* Numeric values (times, readings, scales) are rationals; Python `int(x)`
  (truncation toward zero) is `pyInt`.
* The external world (the wall clock, the instrument drivers, and the
  asynchronous signal flag) is an oracle `Env`: `Env.outcome n i a` is what
  `m.inst.measure(m.meas)` returns on attempt `a` for channel `i` during
  cycle `n` (`none` = the call raised), `Env.killed n` is the value of
  `killer.kill_now` observed at the top-of-loop check before cycle `n`,
  `Env.rowTime n` is `time.time() - init_time` when the row of cycle `n` is
  assembled, and `Env.endTime n` is `curr_time - init_time` after the
  post-sleep clock update of cycle `n` (`time.sleep` itself has no other
  observable effect and is represented only through this oracle).
* The logger is modelled as the list of (severity, message) pairs emitted,
  with structured message payloads in place of formatted strings; the
  CSV recorder (`utils.logger.CSVData`, outside this repository's source)
  is modelled from the spec: it appends one row per `record`/`write`/`flush`
  call and is closed by the epilogue.
* The unbounded loop is driven by explicit fuel; `ExitKind.fuelOut` marks a
  run observed before the loop has finished, in which case the epilogue
  (which closes the file) has not happened yet.
-/

namespace KaptonDaq

/-- Python `int()` applied to a rational: truncation toward zero. -/
def pyInt (q : ℚ) : ℤ := if q < 0 then -⌊-q⌋ else ⌊q⌋

/-- Severities of `utils.logger.Logger` used by `daq.py`
(`logger.log` without a severity argument is informational). -/
inductive Severity
  | info
  | error
  | fatal
deriving DecidableEq

/-- Structured form of the log messages `daq.py` emits. -/
inductive LogMsg
  /-- A plain informational banner, carried verbatim. -/
  | msg (s : String)
  /-- "Failed to read <name>, retrying..." -/
  | failedRead (name : String)
  /-- "Too many consecutive fails, killing DAQ" -/
  | tooManyFails
  /-- Bounded-run progress line: elapsed seconds (as formatted via
  `int(delta_t)`), the reported percentage `min(ratio, 100)`, and the
  cumulative measurement count. -/
  | progressB (elapsedSec : ℤ) (percent : ℚ) (count : ℕ)
  /-- Unbounded-run progress line: elapsed seconds and cumulative count. -/
  | progressU (elapsedSec : ℤ) (count : ℕ)
deriving DecidableEq

abbrev LogEntry := Severity × LogMsg

/-- Resolved instrument family (the class chosen on lines 85-94). -/
inductive InstrumentKind
  | dmm6500
  | keithley485
  | fluke3000
  | virtual
deriving DecidableEq

/-- Resolved measurement mode (lines 100-109). -/
inductive QuantityMode
  | current_dc
  | voltage_dc
  | temperature
  | default
deriving DecidableEq

/-- The `Measurement` namedtuple (line 78): `inst, meas, scale, name, unit`.
The live device handle is opaque; its behaviour lives in the `Env` oracle. -/
structure Measurement where
  inst : InstrumentKind
  meas : QuantityMode
  scale : ℚ
  name : String
  unit : String
deriving DecidableEq

/-- `max_fails = 5` (line 25). -/
def maxFails : ℕ := 5

/-- Outcome of the per-channel retry loop inside `acquire`:
`ok v` = `readings.append(v)` then `break`; `fatalStop` = the
`return None` taken when `fail_count` reaches `max_fails`; `skipped` = the
`while` guard failing with no attempt left (unreachable for
`max_fails = 5`, kept so the embedding mirrors the loop exactly). -/
inductive ReadResult
  | ok (v : ℚ)
  | fatalStop
  | skipped
deriving DecidableEq

/-- The `while fail_count < max_fails` retry loop of `acquire`
(lines 29-39) for one channel. `out a` is the result of attempt `a`
(`none` = the driver raised); `remaining = max_fails - fail_count`. -/
def channelRead (m : Measurement) (out : ℕ → Option ℚ) :
    ℕ → ℕ → ReadResult × List LogEntry
  | _, 0 => (.skipped, [])
  | attempt, remaining+1 =>
    match out attempt with
    | some v => (.ok (m.scale * v), [])
    | none =>
      let e : LogEntry := (.error, .failedRead m.name)
      if remaining = 0 then
        (.fatalStop, [e, (.fatal, .tooManyFails)])
      else
        let r := channelRead m out (attempt + 1) remaining
        (r.1, e :: r.2)

/-- The `for i, m in enumerate(measures)` body of `acquire` (lines 26-41),
threading the absolute channel index `i`. A `fatalStop` discards the
readings accumulated so far (`return None`), keeping only the log. -/
def acquireGo (out : ℕ → ℕ → Option ℚ) :
    List Measurement → ℕ → Option (List ℚ) × List LogEntry
  | [], _ => (some [], [])
  | m :: rest, i =>
    match channelRead m (out i) 0 maxFails with
    | (.ok v, lg) =>
      let r := acquireGo out rest (i + 1)
      (Option.map (fun rs => v :: rs) r.1, lg ++ r.2)
    | (.fatalStop, lg) => (none, lg)
    | (.skipped, lg) =>
      let r := acquireGo out rest (i + 1)
      (r.1, lg ++ r.2)

/-- `acquire(measures)` (lines 23-41). -/
def acquire (out : ℕ → ℕ → Option ℚ) (measures : List Measurement) :
    Option (List ℚ) × List LogEntry :=
  acquireGo out measures 0

/-- The progress-reporting block (lines 168-179), executed once per cycle
after `ite_count += 1`. Returns the new `perc_count`, the new `min_count`,
and the messages logged. `deltaT` is `curr_time - init_time`. -/
def progressStep (samplingTime deltaT : ℚ) (iteCount : ℕ)
    (percCount minCount : ℤ) : ℤ × ℤ × List LogEntry :=
  if samplingTime ≠ 0 ∧ percCount < pyInt (10 * deltaT / samplingTime) then
    let ratio := 100 * deltaT / samplingTime
    (pyInt (ratio / 10), minCount,
      [(.info, .progressB (pyInt deltaT) (min ratio 100) iteCount)])
  else if samplingTime = 0 ∧ (minCount : ℚ) / 5 < (pyInt (deltaT / 300) : ℚ) then
    (percCount, pyInt (deltaT / 60),
      [(.info, .progressU (pyInt deltaT) iteCount)])
  else
    (percCount, minCount, [])

/-- Oracle for the external world observed by the main loop. -/
structure Env where
  /-- `killer.kill_now` as observed by the `while` guard before cycle `n`. -/
  killed : ℕ → Bool
  /-- `m.inst.measure(m.meas)` for cycle `n`, channel `i`, attempt `a`;
  `none` means the call raised an exception. -/
  outcome : ℕ → ℕ → ℕ → Option ℚ
  /-- `time.time() - init_time` when cycle `n`'s row is assembled (line 155). -/
  rowTime : ℕ → ℚ
  /-- `curr_time - init_time` after cycle `n`'s sleep (lines 165-166). -/
  endTime : ℕ → ℚ

/-- The loop-local mutable variables of lines 145-146:
`curr_time - init_time`, `ite_count`, `perc_count`, `min_count`. -/
structure LoopSt where
  currDelta : ℚ
  iteCount : ℕ
  percCount : ℤ
  minCount : ℤ

/-- Why the `while` loop was left: the guard turned false (`normal`),
the `break` on line 152 fired (`broke`), or the fuel ran out while the
loop was still running (`fuelOut`, an artifact of the embedding). -/
inductive ExitKind
  | normal
  | broke
  | fuelOut
deriving DecidableEq

/-- The main loop (lines 148-179). Returns the data rows written, the log
emitted, and how the loop was left, for cycles `n, n+1, ...` while fuel
lasts. A row is `[time.time()-init_time] ++ readings` (lines 155-156). -/
def loopGo (env : Env) (measures : List Measurement) (samplingTime : ℚ) :
    ℕ → ℕ → LoopSt → List (List ℚ) × List LogEntry × ExitKind
  | _, 0, _ => ([], [], .fuelOut)
  | n, fuel+1, st =>
    if (samplingTime = 0 ∨ st.currDelta < samplingTime) ∧ env.killed n = false then
      match acquire (env.outcome n) measures with
      | (some (r :: rs), lg) =>
        let row := env.rowTime n :: r :: rs
        let d := env.endTime n
        let p := progressStep samplingTime d (st.iteCount + 1) st.percCount st.minCount
        let rest := loopGo env measures samplingTime (n + 1) fuel
          ⟨d, st.iteCount + 1, p.1, p.2.1⟩
        (row :: rest.1, lg ++ p.2.2 ++ rest.2.1, rest.2.2)
      | (some [], lg) => ([], lg, .broke)
      | (none, lg) => ([], lg, .broke)
    else ([], [], .normal)

/-- The dictionary keys of lines 134-137: `time` then one
`name [unit]` entry per measurement, in configuration order. -/
def keysOf (measures : List Measurement) : List String :=
  "time" :: measures.map (fun m => m.name ++ " [" ++ m.unit ++ "]")

/-- Observable result of one run of the script from the start of the main
loop: the output file's header and data rows (modelled from the spec's
Recorder contract: `record`/`write`/`flush` appends exactly one complete
row), the log, whether `output.close()` ran, and the process exit status
(the script always falls off the end of the module, so the interpreter
exits reporting success whenever the loop finishes). -/
structure RunResult where
  header : List String
  rows : List (List ℚ)
  log : List LogEntry
  closed : Bool
  exitSuccess : Bool
  exit : ExitKind

/-- The main loop plus epilogue (lines 140-184): run the loop from cycle 0
with `curr_time = init_time`, `ite_count = perc_count = min_count = 0`,
then log "...DONE!" and "Closing DAQ output file" and close the file. -/
def runDAQ (env : Env) (measures : List Measurement) (samplingTime : ℚ)
    (fuel : ℕ) : RunResult :=
  let go := loopGo env measures samplingTime 0 fuel ⟨0, 0, 0, 0⟩
  { header := keysOf measures
    rows := go.1
    log := go.2.1 ++ (if go.2.2 = .fuelOut then [] else
      [(.info, .msg "...DONE!"), (.info, .msg "Closing DAQ output file")])
    closed := if go.2.2 = .fuelOut then false else true
    exitSuccess := true
    exit := go.2.2 }

/-- One measurement block of the configuration file (the fields of
`cfg['measurements']` that `daq.py` reads; the protocol-specific
`baud`/`port`/`model` fields only flow into the opaque device handle). -/
structure MeasureCfg where
  instrument : String
  quantity : String
  protocol : String
  device : String
  scale : ℚ
  name : String
  unit : String
deriving DecidableEq

/-- Instrument resolution, lines 85-94. -/
def resolveInstrument (s : String) : Except String InstrumentKind :=
  if s = "dmm6500" then .ok .dmm6500
  else if s = "keithley485" then .ok .keithley485
  else if s = "fluke3000" then .ok .fluke3000
  else if s = "virtual" then .ok .virtual
  else .error ("Instrument not supported: " ++ s)

/-- Quantity resolution, lines 100-109. -/
def resolveQuantity (s : String) : Except String QuantityMode :=
  if s = "current" then .ok .current_dc
  else if s = "voltage" then .ok .voltage_dc
  else if s = "temperature" then .ok .temperature
  else if s = "virtual" then .ok .default
  else .error ("Quantity not supported: " ++ s)

/-- Protocol resolution, lines 115-124 (the device-open side effect lives
in the opaque handle; only the recognition check is observable here). -/
def resolveProtocol (s : String) : Except String Unit :=
  if s = "usbtmc" then .ok ()
  else if s = "serial" then .ok ()
  else if s = "gpib" then .ok ()
  else if s = "virtual" then .ok ()
  else .error ("Protocol not supported: " ++ s)

/-- Setup of a single measurement (lines 80-132): resolve the instrument,
then the quantity, then the protocol, in the source's order; the first
unrecognized value raises (`Except.error`). -/
def setupMeasure (c : MeasureCfg) : Except String Measurement :=
  match resolveInstrument c.instrument with
  | .error e => .error e
  | .ok inst =>
    match resolveQuantity c.quantity with
    | .error e => .error e
    | .ok meas =>
      match resolveProtocol c.protocol with
      | .error e => .error e
      | .ok _ => .ok (Measurement.mk inst meas c.scale c.name c.unit)

/-- The `for measure in cfg['measurements'].values()` setup loop
(lines 79-132): the first unrecognized value aborts the whole setup. -/
def setupAll : List MeasureCfg → Except String (List Measurement)
  | [] => Except.ok []
  | c :: rest =>
    match setupMeasure c with
    | .error e => .error e
    | .ok m =>
      match setupAll rest with
      | .error e => .error e
      | .ok ms => .ok (m :: ms)

/-- The script from setup through the loop: the measurement setup runs
first (lines 79-132) and an exception there propagates out of the module,
so the main loop (line 148 onward) is reached only when every
configuration entry is recognized. -/
def program (env : Env) (cfgs : List MeasureCfg) (samplingTime : ℚ)
    (fuel : ℕ) : Except String RunResult :=
  (setupAll cfgs).map (fun ms => runDAQ env ms samplingTime fuel)

/-- A configuration entry whose three string-keyed choices are all in the
closed sets that lines 85-124 accept. -/
def cfgRecognized (c : MeasureCfg) : Prop :=
  (c.instrument = "dmm6500" ∨ c.instrument = "keithley485"
    ∨ c.instrument = "fluke3000" ∨ c.instrument = "virtual") ∧
  (c.quantity = "current" ∨ c.quantity = "voltage"
    ∨ c.quantity = "temperature" ∨ c.quantity = "virtual") ∧
  (c.protocol = "usbtmc" ∨ c.protocol = "serial" ∨ c.protocol = "gpib"
    ∨ c.protocol = "virtual")

instance (c : MeasureCfg) : Decidable (cfgRecognized c) := by
  unfold cfgRecognized; infer_instance

/-- Python truthiness of an optional float command-line argument:
`None` and `0.0` are falsy. -/
def pyTruthy : Option ℚ → Bool
  | none => false
  | some a => decide (a ≠ 0)

/-- `cfg[key] if not args.val else args.val` (lines 64-65): the pattern
used to resolve `SAMPLING_TIME` and `REFRESH_RATE`. -/
def resolveParam (cfgVal : ℚ) (arg : Option ℚ) : ℚ :=
  if pyTruthy arg then arg.getD 0 else cfgVal

/-- The `Killer` signal-handler class (lines 13-20). -/
structure Killer where
  kill_now : Bool
deriving DecidableEq

/-- `Killer()` starts with `kill_now = False` (line 14). -/
def Killer.init : Killer := ⟨false⟩

/-- The handler `exit(self, signum, frame)` (lines 19-20): it only sets
`kill_now = True`, regardless of which signal or frame arrived. -/
def Killer.exit (_k : Killer) (_signum _frame : ℕ) : Killer := ⟨true⟩

/-! ## Observers on the log, used to state the progress-reporting claims -/

/-- The reported percentage of a bounded-run progress entry, if any. -/
def isProgB : LogEntry → Option ℚ
  | (_, .progressB _ p _) => some p
  | _ => none

/-- The reported percentages of the bounded-run progress lines of a log,
in emission order. -/
def progressBs (lg : List LogEntry) : List ℚ := lg.filterMap isProgB

/-- The elapsed seconds of an unbounded-run progress entry, if any. -/
def isProgU : LogEntry → Option ℤ
  | (_, .progressU s _) => some s
  | _ => none

/-- The elapsed-seconds stamps of the unbounded-run progress lines of a
log, in emission order. -/
def progressUs (lg : List LogEntry) : List ℤ := lg.filterMap isProgU

/-- The readings a cycle contributes when channel `j` succeeds with raw
value `v j` after its retries: `scale * value` per channel, in order. -/
def readingsOf : List Measurement → (ℕ → ℚ) → List ℚ
  | [], _ => []
  | m :: rest, v => m.scale * v 0 :: readingsOf rest (fun j => v (j + 1))

/-! ## Concrete inputs used by witnesses and counterexamples -/

/-- A single simulated channel. -/
def virtualMeas : Measurement := ⟨.virtual, .default, 1, "temp", "K"⟩

/-- An environment whose instrument reads always fail. -/
def allFailEnv : Env :=
  ⟨fun _ => false, fun _ _ _ => none, fun _ => 0, fun _ => 0⟩

/-- An environment whose reads always succeed, with the clock advancing
one second per cycle. -/
def okEnv : Env :=
  ⟨fun _ => false, fun _ _ _ => some 1, fun n => n, fun n => n + 1⟩

/-- An environment where every read fails twice and then succeeds with 7. -/
def retryEnv : Env :=
  ⟨fun _ => false, fun _ _ a => if a < 2 then none else some 7,
    fun n => n, fun n => n + 1⟩

/-- An environment where the stop flag is observed set from the check
before cycle 1 onward. -/
def killEnv : Env :=
  ⟨fun n => decide (1 ≤ n), fun _ _ _ => some 1, fun n => n, fun n => n + 1⟩

/-- An environment where the stop flag is already set at cycle 0. -/
def stopEnv : Env :=
  ⟨fun _ => true, fun _ _ _ => some 1, fun n => n, fun n => n + 1⟩

/-- An environment with one very slow cycle: 1200 s elapse during cycle 0,
and the stop flag is observed at cycle 1. -/
def sparseEnv : Env :=
  ⟨fun n => decide (1 ≤ n), fun _ _ _ => some 1, fun n => n, fun _ => 1200⟩

/-- An environment taking 350 s per cycle, stopped at cycle 2. -/
def windowEnv : Env :=
  ⟨fun n => decide (2 ≤ n), fun _ _ _ => some 1, fun n => n,
    fun n => 350 * ((n : ℚ) + 1)⟩

/-- A configuration entry with an unsupported instrument string. -/
def badCfg : MeasureCfg :=
  ⟨"hp34401a", "voltage", "usbtmc", "/dev/usbtmc0", 1, "v", "V"⟩

/-! ## Basic facts about `pyInt` -/

lemma pyInt_of_nonneg {q : ℚ} (h : 0 ≤ q) : pyInt q = ⌊q⌋ := by
  unfold pyInt
  rw [if_neg (not_lt.2 h)]

lemma pyInt_nonpos_of_neg {q : ℚ} (h : q < 0) : pyInt q ≤ 0 := by
  unfold pyInt
  rw [if_pos h]
  have h2 : 0 ≤ ⌊-q⌋ := Int.floor_nonneg.2 (by linarith)
  omega

lemma lt_of_pyInt_le {q : ℚ} {c : ℤ} (h : pyInt q ≤ c) (hc : 0 ≤ c) :
    q < c + 1 := by
  by_cases hq : q < 0
  · have h1 : (0 : ℚ) ≤ (c : ℚ) := by exact_mod_cast hc
    linarith
  · rw [pyInt_of_nonneg (not_lt.1 hq)] at h
    have h2 := Int.lt_floor_add_one q
    have h3 : (⌊q⌋ : ℚ) ≤ (c : ℚ) := by exact_mod_cast h
    linarith

lemma le_of_le_pyInt {q : ℚ} {m : ℤ} (hm : 1 ≤ m) (h : m ≤ pyInt q) :
    (m : ℚ) ≤ q := by
  by_cases hq : q < 0
  · exact absurd h (by have := pyInt_nonpos_of_neg hq; omega)
  · rw [pyInt_of_nonneg (not_lt.1 hq)] at h
    exact Int.le_floor.1 h

lemma floor_div_intq (q : ℚ) {n : ℤ} (hn : 0 < n) : ⌊q / n⌋ = ⌊q⌋ / n := by
  apply le_antisymm
  · rw [Int.le_ediv_iff_mul_le hn, Int.le_floor]
    have h1 : (⌊q / (n : ℚ)⌋ : ℚ) ≤ q / n := Int.floor_le _
    have hn2 : (0 : ℚ) < n := by exact_mod_cast hn
    push_cast
    calc (⌊q / (n : ℚ)⌋ : ℚ) * n ≤ (q / n) * n :=
          mul_le_mul_of_nonneg_right h1 (le_of_lt hn2)
      _ = q := by field_simp
  · rw [Int.le_floor]
    have hn2 : (0 : ℚ) < n := by exact_mod_cast hn
    rw [le_div_iff₀ hn2]
    have h2 : (⌊q⌋ / n) * n ≤ ⌊q⌋ := Int.ediv_mul_le ⌊q⌋ (ne_of_gt hn)
    calc ((⌊q⌋ / n : ℤ) : ℚ) * n = ((⌊q⌋ / n * n : ℤ) : ℚ) := by push_cast; ring
      _ ≤ (⌊q⌋ : ℚ) := by exact_mod_cast h2
      _ ≤ q := Int.floor_le q

lemma pyInt_div_of_nonneg {q : ℚ} {n : ℤ} (hq : 0 ≤ q) (hn : 0 < n) :
    pyInt (q / n) = pyInt q / n := by
  have hn2 : (0 : ℚ) < n := by exact_mod_cast hn
  rw [pyInt_of_nonneg (by positivity), pyInt_of_nonneg hq, floor_div_intq q hn]

/-! ## Facts about `channelRead` and `acquire` -/

lemma channelRead_fst_ne_skipped (m : Measurement) (out : ℕ → Option ℚ) :
    ∀ remaining attempt, 0 < remaining →
      (channelRead m out attempt remaining).1 ≠ ReadResult.skipped := by
  intro remaining
  induction remaining with
  | zero => intro attempt h; omega
  | succ r ih =>
    intro attempt _
    cases hout : out attempt with
    | some v => simp [channelRead, hout]
    | none =>
      by_cases hr : r = 0
      · subst hr; simp [channelRead, hout]
      · simpa [channelRead, hout, hr] using ih (attempt + 1) (Nat.pos_of_ne_zero hr)

lemma channelRead_log_shape (m : Measurement) (out : ℕ → Option ℚ) :
    ∀ remaining attempt e, e ∈ (channelRead m out attempt remaining).2 →
      e = (Severity.error, LogMsg.failedRead m.name) ∨
      e = (Severity.fatal, LogMsg.tooManyFails) := by
  intro remaining
  induction remaining with
  | zero => intro attempt e he; simp [channelRead] at he
  | succ r ih =>
    intro attempt e he
    cases hout : out attempt with
    | some v => simp [channelRead, hout] at he
    | none =>
      by_cases hr : r = 0
      · subst hr
        simp [channelRead, hout] at he
        rcases he with h | h
        · exact Or.inl h
        · exact Or.inr h
      · simp [channelRead, hout, hr] at he
        rcases he with h | h
        · exact Or.inl h
        · exact ih (attempt + 1) e h

lemma channelRead_ok_logs (m : Measurement) (out : ℕ → Option ℚ) :
    ∀ remaining attempt v, (channelRead m out attempt remaining).1 = ReadResult.ok v →
      ∀ e ∈ (channelRead m out attempt remaining).2,
        e = (Severity.error, LogMsg.failedRead m.name) := by
  intro remaining
  induction remaining with
  | zero => intro attempt v hv; simp [channelRead] at hv
  | succ r ih =>
    intro attempt v hv e he
    cases hout : out attempt with
    | some w => simp [channelRead, hout] at he
    | none =>
      by_cases hr : r = 0
      · subst hr; simp [channelRead, hout] at hv
      · simp only [channelRead, hout, if_neg hr, List.mem_cons] at hv he
        rcases he with h | h
        · exact h
        · exact ih (attempt + 1) v hv e h

lemma channelRead_fatal_mem (m : Measurement) (out : ℕ → Option ℚ) :
    ∀ remaining attempt, (channelRead m out attempt remaining).1 = ReadResult.fatalStop →
      (Severity.fatal, LogMsg.tooManyFails) ∈ (channelRead m out attempt remaining).2 := by
  intro remaining
  induction remaining with
  | zero => intro attempt h; simp [channelRead] at h
  | succ r ih =>
    intro attempt h
    cases hout : out attempt with
    | some w => simp [channelRead, hout] at h
    | none =>
      by_cases hr : r = 0
      · subst hr; simp [channelRead, hout]
      · simp only [channelRead, hout, if_neg hr] at h ⊢
        simp only [List.mem_cons]
        exact Or.inr (ih (attempt + 1) h)

lemma acquire_some_length (out : ℕ → ℕ → Option ℚ) :
    ∀ ms i rs, (acquireGo out ms i).1 = some rs → rs.length = ms.length := by
  intro ms
  induction ms with
  | nil =>
    intro i rs h
    simp [acquireGo] at h
    simp [← h]
  | cons m rest ih =>
    intro i rs h
    rcases hcr : channelRead m (out i) 0 maxFails with ⟨res, lg⟩
    cases res with
    | ok v =>
      simp only [acquireGo, hcr, Option.map_eq_some'] at h
      obtain ⟨rs2, h2, rfl⟩ := h
      simp [ih (i + 1) rs2 h2]
    | fatalStop => simp [acquireGo, hcr] at h
    | skipped =>
      exact absurd (by rw [hcr])
        (channelRead_fst_ne_skipped m (out i) maxFails 0 (by norm_num [maxFails]))

lemma acquire_none_fatal (out : ℕ → ℕ → Option ℚ) :
    ∀ ms i, (acquireGo out ms i).1 = none →
      (Severity.fatal, LogMsg.tooManyFails) ∈ (acquireGo out ms i).2 := by
  intro ms
  induction ms with
  | nil => intro i h; simp [acquireGo] at h
  | cons m rest ih =>
    intro i h
    rcases hcr : channelRead m (out i) 0 maxFails with ⟨res, lg⟩
    cases res with
    | ok v =>
      simp only [acquireGo, hcr, Option.map_eq_none'] at h
      simp only [acquireGo, hcr, List.mem_append]
      exact Or.inr (ih (i + 1) h)
    | fatalStop =>
      have h2 := channelRead_fatal_mem m (out i) maxFails 0 (by rw [hcr])
      rw [hcr] at h2
      simpa [acquireGo, hcr] using h2
    | skipped =>
      exact absurd (by rw [hcr])
        (channelRead_fst_ne_skipped m (out i) maxFails 0 (by norm_num [maxFails]))

lemma acquire_some_logs (out : ℕ → ℕ → Option ℚ) :
    ∀ ms i rs, (acquireGo out ms i).1 = some rs →
      ∀ e ∈ (acquireGo out ms i).2,
        e.1 = Severity.error ∧ ∃ nm, e.2 = LogMsg.failedRead nm := by
  intro ms
  induction ms with
  | nil => intro i rs _ e he; simp [acquireGo] at he
  | cons m rest ih =>
    intro i rs h e he
    rcases hcr : channelRead m (out i) 0 maxFails with ⟨res, lg⟩
    cases res with
    | ok v =>
      simp only [acquireGo, hcr, Option.map_eq_some'] at h
      obtain ⟨rs2, h2, rfl⟩ := h
      simp only [acquireGo, hcr, List.mem_append] at he
      rcases he with he | he
      · have h3 := channelRead_ok_logs m (out i) maxFails 0 v (by rw [hcr]) e
          (by rw [hcr]; exact he)
        rw [h3]
        exact ⟨rfl, m.name, rfl⟩
      · exact ih (i + 1) rs2 h2 e he
    | fatalStop => simp [acquireGo, hcr] at h
    | skipped =>
      exact absurd (by rw [hcr])
        (channelRead_fst_ne_skipped m (out i) maxFails 0 (by norm_num [maxFails]))

lemma acquire_log_shape (out : ℕ → ℕ → Option ℚ) :
    ∀ ms i e, e ∈ (acquireGo out ms i).2 →
      (∃ nm, e = (Severity.error, LogMsg.failedRead nm)) ∨
      e = (Severity.fatal, LogMsg.tooManyFails) := by
  intro ms
  induction ms with
  | nil => intro i e he; simp [acquireGo] at he
  | cons m rest ih =>
    intro i e he
    rcases hcr : channelRead m (out i) 0 maxFails with ⟨res, lg⟩
    have hch : ∀ e2 ∈ lg,
        (∃ nm, e2 = (Severity.error, LogMsg.failedRead nm)) ∨
        e2 = (Severity.fatal, LogMsg.tooManyFails) := by
      intro e2 he2
      have h3 := channelRead_log_shape m (out i) maxFails 0 e2 (by rw [hcr]; exact he2)
      rcases h3 with h | h
      · exact Or.inl ⟨m.name, h⟩
      · exact Or.inr h
    cases res with
    | ok v =>
      simp only [acquireGo, hcr, List.mem_append] at he
      rcases he with he | he
      · exact hch e he
      · exact ih (i + 1) e he
    | fatalStop =>
      simp only [acquireGo, hcr] at he
      exact hch e he
    | skipped =>
      simp only [acquireGo, hcr, List.mem_append] at he
      rcases he with he | he
      · exact hch e he
      · exact ih (i + 1) e he

lemma acquire_no_progressB (out : ℕ → ℕ → Option ℚ) (ms : List Measurement) (i : ℕ) :
    progressBs (acquireGo out ms i).2 = [] := by
  rw [progressBs, List.filterMap_eq_nil_iff]
  intro e he
  rcases acquire_log_shape out ms i e he with ⟨nm, rfl⟩ | rfl <;> rfl

lemma acquire_no_progressU (out : ℕ → ℕ → Option ℚ) (ms : List Measurement) (i : ℕ) :
    progressUs (acquireGo out ms i).2 = [] := by
  rw [progressUs, List.filterMap_eq_nil_iff]
  intro e he
  rcases acquire_log_shape out ms i e he with ⟨nm, rfl⟩ | rfl <;> rfl

lemma channelRead_fatal_of_allfail (m : Measurement) (out : ℕ → Option ℚ)
    (h : ∀ a < 5, out a = none) :
    (channelRead m out 0 5).1 = ReadResult.fatalStop := by
  have h0 := h 0 (by norm_num)
  have h1 := h 1 (by norm_num)
  have h2 := h 2 (by norm_num)
  have h3 := h 3 (by norm_num)
  have h4 := h 4 (by norm_num)
  show (channelRead m out 0 (4+1)).1 = ReadResult.fatalStop
  simp only [channelRead, h0]
  norm_num
  show (channelRead m out 1 (3+1)).1 = ReadResult.fatalStop
  simp only [channelRead, h1]
  norm_num
  show (channelRead m out 2 (2+1)).1 = ReadResult.fatalStop
  simp only [channelRead, h2]
  norm_num
  show (channelRead m out 3 (1+1)).1 = ReadResult.fatalStop
  simp only [channelRead, h3]
  norm_num
  show (channelRead m out 4 (0+1)).1 = ReadResult.fatalStop
  simp [channelRead, h4]

lemma acquire_none_of_allfail (out : ℕ → ℕ → Option ℚ) :
    ∀ ms i j, j < ms.length → (∀ a < 5, out (i + j) a = none) →
      (acquireGo out ms i).1 = none := by
  intro ms
  induction ms with
  | nil => intro i j hj; simp at hj
  | cons m rest ih =>
    intro i j hj hall
    rcases hcr : channelRead m (out i) 0 maxFails with ⟨res, lg⟩
    cases res with
    | ok v =>
      cases j with
      | zero =>
        exfalso
        have h2 : (channelRead m (out i) 0 5).1 = ReadResult.fatalStop :=
          channelRead_fatal_of_allfail m (out i) (by simpa using hall)
        have h5 : (channelRead m (out i) 0 maxFails).1 = ReadResult.ok v := by
          rw [hcr]
        rw [show maxFails = 5 from rfl, h2] at h5
        exact ReadResult.noConfusion h5
      | succ j2 =>
        have h3 : (acquireGo out rest (i + 1)).1 = none := by
          apply ih (i + 1) j2 (by simpa using hj)
          intro a ha
          have h6 := hall a ha
          rwa [show i + (j2 + 1) = i + 1 + j2 by omega] at h6
        simp [acquireGo, hcr, h3]
    | fatalStop => simp [acquireGo, hcr]
    | skipped =>
      exact absurd (by rw [hcr])
        (channelRead_fst_ne_skipped m (out i) maxFails 0 (by norm_num [maxFails]))

lemma channelRead_retry_ok (m : Measurement) (out : ℕ → Option ℚ) (w : ℚ) :
    ∀ kf remaining attempt, kf < remaining →
      (∀ a < kf, out (attempt + a) = none) → out (attempt + kf) = some w →
      channelRead m out attempt remaining =
        (ReadResult.ok (m.scale * w),
          List.replicate kf (Severity.error, LogMsg.failedRead m.name)) := by
  intro kf
  induction kf with
  | zero =>
    intro remaining attempt hlt hfails hok
    obtain ⟨r, rfl⟩ : ∃ r, remaining = r + 1 := ⟨remaining - 1, by omega⟩
    simp only [Nat.add_zero] at hok
    simp [channelRead, hok]
  | succ k2 ih =>
    intro remaining attempt hlt hfails hok
    obtain ⟨r, rfl⟩ : ∃ r, remaining = r + 1 := ⟨remaining - 1, by omega⟩
    have hr : r ≠ 0 := by omega
    have h0 : out attempt = none := by simpa using hfails 0 (by omega)
    have hrec := ih r (attempt + 1) (by omega)
      (by
        intro a ha
        have h6 := hfails (a + 1) (by omega)
        rwa [show attempt + (a + 1) = attempt + 1 + a by omega] at h6)
      (by rwa [show attempt + (k2 + 1) = attempt + 1 + k2 by omega] at hok)
    simp [channelRead, h0, hr, hrec, List.replicate_succ]

lemma acquire_retry_ok (out : ℕ → ℕ → Option ℚ) :
    ∀ ms i (kf : ℕ → ℕ) (v : ℕ → ℚ),
      (∀ j < ms.length, kf j < 5 ∧ (∀ a < kf j, out (i + j) a = none) ∧
        out (i + j) (kf j) = some (v j)) →
      (acquireGo out ms i).1 = some (readingsOf ms v) := by
  intro ms
  induction ms with
  | nil => intro i kf v _; simp [acquireGo, readingsOf]
  | cons m rest ih =>
    intro i kf v h
    obtain ⟨hk0, hf0, ho0⟩ := h 0 (by simp)
    have hcr : channelRead m (out i) 0 maxFails =
        (ReadResult.ok (m.scale * v 0),
          List.replicate (kf 0) (Severity.error, LogMsg.failedRead m.name)) := by
      have := channelRead_retry_ok m (out i) (v 0) (kf 0) maxFails 0
        (by simpa [maxFails] using hk0) (by simpa using hf0) (by simpa using ho0)
      simpa using this
    have hrest : (acquireGo out rest (i + 1)).1 =
        some (readingsOf rest (fun j => v (j + 1))) := by
      apply ih (i + 1) (fun j => kf (j + 1)) (fun j => v (j + 1))
      intro j hj
      have h6 := h (j + 1) (by simpa using hj)
      rwa [show i + (j + 1) = i + 1 + j by omega] at h6
    simp [acquireGo, hcr, hrest, readingsOf]

/-! ## Facts about the main loop -/

lemma loopGo_stop (env : Env) (ms : List Measurement) (S : ℚ) (n fuel : ℕ)
    (st : LoopSt) (h : ¬ ((S = 0 ∨ st.currDelta < S) ∧ env.killed n = false)) :
    loopGo env ms S n (fuel + 1) st = ([], [], ExitKind.normal) := by
  simp [loopGo, h]

lemma loopGo_elapsed (env : Env) (ms : List Measurement) {S : ℚ} (n fuel : ℕ)
    (st : LoopSt) (hS : 0 < S) (h : S ≤ st.currDelta) :
    (loopGo env ms S n fuel st).1 = [] ∧ (loopGo env ms S n fuel st).2.1 = [] := by
  cases fuel with
  | zero => exact ⟨rfl, rfl⟩
  | succ f =>
    rw [loopGo_stop]
    · exact ⟨rfl, rfl⟩
    · rintro ⟨h1 | h1, _⟩
      · exact absurd h1 (ne_of_gt hS)
      · exact absurd h1 (not_lt.2 h)

lemma loopGo_row_lengths (env : Env) (ms : List Measurement) (S : ℚ) :
    ∀ fuel n st r, r ∈ (loopGo env ms S n fuel st).1 → r.length = 1 + ms.length := by
  intro fuel
  induction fuel with
  | zero => intro n st r hr; simp [loopGo] at hr
  | succ f ih =>
    intro n st r hr
    by_cases hc : (S = 0 ∨ st.currDelta < S) ∧ env.killed n = false
    · rcases hacq : acquireGo (env.outcome n) ms 0 with ⟨res, lg⟩
      rcases res with _ | ⟨_ | ⟨r0, rs⟩⟩
      · simp [loopGo, hc, acquire, hacq] at hr
      · simp [loopGo, hc, acquire, hacq] at hr
      · simp only [loopGo, if_pos hc, acquire, hacq, List.mem_cons] at hr
        rcases hr with rfl | hr
        · have h4 := acquire_some_length (env.outcome n) ms 0 (r0 :: rs) (by rw [hacq])
          simp only [List.length_cons] at h4
          simp only [List.length_cons]
          omega
        · exact ih (n + 1) _ r hr
    · simp [loopGo_stop env ms S n f st hc] at hr

lemma loopGo_killed_bound (env : Env) (ms : List Measurement) (S : ℚ)
    (hmono : ∀ i j, i ≤ j → env.killed i = true → env.killed j = true)
    (m : ℕ) (hm : env.killed m = true) :
    ∀ fuel n st, (loopGo env ms S n fuel st).1.length ≤ m - n ∧
      (m - n < fuel → (loopGo env ms S n fuel st).2.2 ≠ ExitKind.fuelOut) := by
  intro fuel
  induction fuel with
  | zero => intro n st; simp [loopGo]
  | succ f ih =>
    intro n st
    by_cases hkn : env.killed n = true
    · have hc : ¬ ((S = 0 ∨ st.currDelta < S) ∧ env.killed n = false) := by
        rintro ⟨_, h2⟩; rw [hkn] at h2; exact Bool.noConfusion h2
      rw [loopGo_stop env ms S n f st hc]
      exact ⟨by simp, fun _ => by simp⟩
    · have hnm : n < m := by
        by_contra hge
        exact hkn (hmono m n (by omega) hm)
      by_cases hc : (S = 0 ∨ st.currDelta < S) ∧ env.killed n = false
      · rcases hacq : acquireGo (env.outcome n) ms 0 with ⟨res, lg⟩
        rcases res with _ | ⟨_ | ⟨r0, rs⟩⟩
        · simp [loopGo, hc, acquire, hacq]
        · simp [loopGo, hc, acquire, hacq]
        · simp only [loopGo, if_pos hc, acquire, hacq]
          obtain ⟨ih1, ih2⟩ := ih (n + 1) ⟨env.endTime n, st.iteCount + 1,
            (progressStep S (env.endTime n) (st.iteCount + 1) st.percCount st.minCount).1,
            (progressStep S (env.endTime n) (st.iteCount + 1) st.percCount st.minCount).2.1⟩
          constructor
          · simp only [List.length_cons]
            omega
          · intro hfuel
            exact ih2 (by omega)
      · rw [loopGo_stop env ms S n f st hc]
        exact ⟨by simp, fun _ => by simp⟩

/-! ## Facts about the progress reporter -/

lemma progressStep_cross {S d : ℚ} (hS : S ≠ 0) {p mc : ℤ} (iteC : ℕ)
    (h : p < pyInt (10 * d / S)) :
    progressStep S d iteC p mc =
      (pyInt (10 * d / S), mc,
        [(Severity.info, LogMsg.progressB (pyInt d) (min (100 * d / S) 100) iteC)]) := by
  have h10 : (100 * d / S) / 10 = 10 * d / S := by ring
  simp [progressStep, hS, h, h10]

lemma progressStep_nocross_bounded {S d : ℚ} (hS : S ≠ 0) {p mc : ℤ} (iteC : ℕ)
    (h : ¬ p < pyInt (10 * d / S)) :
    progressStep S d iteC p mc = (p, mc, []) := by
  simp [progressStep, hS, h]

lemma progressStep_cross_unbounded {d : ℚ} {p mc : ℤ} (iteC : ℕ)
    (h : (mc : ℚ) / 5 < (pyInt (d / 300) : ℚ)) :
    progressStep 0 d iteC p mc =
      (p, pyInt (d / 60), [(Severity.info, LogMsg.progressU (pyInt d) iteC)]) := by
  simp [progressStep, h]

lemma progressStep_nocross_unbounded {d : ℚ} {p mc : ℤ} (iteC : ℕ)
    (h : ¬ (mc : ℚ) / 5 < (pyInt (d / 300) : ℚ)) :
    progressStep 0 d iteC p mc = (p, mc, []) := by
  simp [progressStep, h]

lemma progressBs_append (a b : List LogEntry) :
    progressBs (a ++ b) = progressBs a ++ progressBs b :=
  List.filterMap_append a b isProgB

lemma progressUs_append (a b : List LogEntry) :
    progressUs (a ++ b) = progressUs a ++ progressUs b :=
  List.filterMap_append a b isProgU

/-- One successful cycle of the main loop, written out: the row is
appended and the loop continues from the post-sleep state. -/
lemma loopGo_row_step (env : Env) (ms : List Measurement) (S : ℚ)
    (n f : ℕ) (st : LoopSt) (r0 : ℚ) (rs : List ℚ) (lg : List LogEntry)
    (hc : (S = 0 ∨ st.currDelta < S) ∧ env.killed n = false)
    (hacq : acquireGo (env.outcome n) ms 0 = (some (r0 :: rs), lg)) :
    loopGo env ms S n (f + 1) st =
      ((env.rowTime n :: r0 :: rs) ::
          (loopGo env ms S (n + 1) f ⟨env.endTime n, st.iteCount + 1,
            (progressStep S (env.endTime n) (st.iteCount + 1) st.percCount st.minCount).1,
            (progressStep S (env.endTime n) (st.iteCount + 1) st.percCount st.minCount).2.1⟩).1,
        (lg ++ (progressStep S (env.endTime n) (st.iteCount + 1) st.percCount st.minCount).2.2 ++
          (loopGo env ms S (n + 1) f ⟨env.endTime n, st.iteCount + 1,
            (progressStep S (env.endTime n) (st.iteCount + 1) st.percCount st.minCount).1,
            (progressStep S (env.endTime n) (st.iteCount + 1) st.percCount st.minCount).2.1⟩).2.1,
        (loopGo env ms S (n + 1) f ⟨env.endTime n, st.iteCount + 1,
            (progressStep S (env.endTime n) (st.iteCount + 1) st.percCount st.minCount).1,
            (progressStep S (env.endTime n) (st.iteCount + 1) st.percCount st.minCount).2.1⟩).2.2)) := by
  simp [loopGo, hc, acquire, hacq]

/-- The inductive invariant behind C6: starting a bounded loop segment
with `0 ≤ perc_count ≤ 9`, the reported percentages are strictly
increasing, each lies in `[10 * (perc_count + 1), 100]`, at most
`(9 - perc_count) + 1` of them are emitted, and if the segment ends with
the guard turning false while the flag was never raised and the segment
began with time still remaining, the last report is exactly 100%. -/
lemma loopGo_progressB_inv (env : Env) (ms : List Measurement) {S : ℚ}
    (hS : 0 < S) :
    ∀ fuel n st, 0 ≤ st.percCount → st.percCount ≤ 9 →
      List.Chain' (· < ·) (progressBs (loopGo env ms S n fuel st).2.1) ∧
      (∀ x ∈ progressBs (loopGo env ms S n fuel st).2.1,
        10 * ((st.percCount : ℚ) + 1) ≤ x ∧ x ≤ 100) ∧
      (progressBs (loopGo env ms S n fuel st).2.1).length ≤
        (9 - st.percCount).toNat + 1 ∧
      ((∀ k2, env.killed k2 = false) →
        (loopGo env ms S n fuel st).2.2 = ExitKind.normal →
        st.currDelta < S →
        (progressBs (loopGo env ms S n fuel st).2.1).getLast? = some 100) := by
  have hSne : S ≠ 0 := ne_of_gt hS
  intro fuel
  induction fuel with
  | zero =>
    intro n st _ _
    refine ⟨by simp [loopGo, progressBs], by simp [loopGo, progressBs],
      by simp [loopGo, progressBs], ?_⟩
    intro _ hexit
    simp [loopGo] at hexit
  | succ f ih =>
    intro n st hp0 hp9
    by_cases hc : (S = 0 ∨ st.currDelta < S) ∧ env.killed n = false
    · rcases hacq : acquireGo (env.outcome n) ms 0 with ⟨res, lg⟩
      have hlgB : progressBs lg = [] := by
        have h2 := acquire_no_progressB (env.outcome n) ms 0
        rw [hacq] at h2
        exact h2
      rcases res with _ | ⟨_ | ⟨r0, rs⟩⟩
      · refine ⟨?_, ?_, ?_, ?_⟩ <;>
          simp [loopGo, hc, acquire, hacq, hlgB]
      · refine ⟨?_, ?_, ?_, ?_⟩ <;>
          simp [loopGo, hc, acquire, hacq, hlgB]
      · rw [loopGo_row_step env ms S n f st r0 rs lg hc hacq]
        by_cases hcross : st.percCount < pyInt (10 * env.endTime n / S)
        · -- a decile boundary was crossed: one message is emitted
          rw [progressStep_cross hSne (st.iteCount + 1) hcross]
          dsimp only
          set st2 : LoopSt := ⟨env.endTime n, st.iteCount + 1,
            pyInt (10 * env.endTime n / S), st.minCount⟩ with hst2
          set rest := loopGo env ms S (n + 1) f st2 with hrestdef
          have hpb : progressBs ((lg ++ [(Severity.info,
              LogMsg.progressB (pyInt (env.endTime n))
                (min (100 * env.endTime n / S) 100) (st.iteCount + 1))]) ++
              rest.2.1) =
              min (100 * env.endTime n / S) 100 :: progressBs rest.2.1 := by
            rw [progressBs_append, progressBs_append, hlgB]
            simp [progressBs, isProgB]
          rw [hpb]
          have hm1 : 1 ≤ pyInt (10 * env.endTime n / S) := by omega
          have hmle : (pyInt (10 * env.endTime n / S) : ℚ) ≤
              10 * env.endTime n / S := le_of_le_pyInt hm1 le_rfl
          have hp9q : (st.percCount : ℚ) ≤ 9 := by exact_mod_cast hp9
          have hp0q : (0 : ℚ) ≤ (st.percCount : ℚ) := by exact_mod_cast hp0
          have hpm : (st.percCount : ℚ) + 1 ≤
              (pyInt (10 * env.endTime n / S) : ℚ) := by
            have h3 : st.percCount + 1 ≤ pyInt (10 * env.endTime n / S) := by omega
            exact_mod_cast h3
          have hratio : 100 * env.endTime n / S = 10 * (10 * env.endTime n / S) := by
            ring
          have hx1lo : 10 * ((st.percCount : ℚ) + 1) ≤
              min (100 * env.endTime n / S) 100 := by
            apply le_min
            · rw [hratio]; nlinarith
            · linarith
          by_cases hm9 : pyInt (10 * env.endTime n / S) ≤ 9
          · -- intermediate crossing: the marker stays at most 9
            have hm9q : (pyInt (10 * env.endTime n / S) : ℚ) ≤ 9 := by
              exact_mod_cast hm9
            have hmup : 10 * env.endTime n / S <
                (pyInt (10 * env.endTime n / S) : ℚ) + 1 := by
              have h4 := lt_of_pyInt_le
                (le_refl (pyInt (10 * env.endTime n / S))) (by omega)
              push_cast at h4 ⊢
              linarith
            have hrlt : 100 * env.endTime n / S < 100 := by
              rw [hratio]; nlinarith
            have hxmin : min (100 * env.endTime n / S) 100 =
                100 * env.endTime n / S := min_eq_left (le_of_lt hrlt)
            have hdlt : env.endTime n < S := by
              have h10 : 10 * (env.endTime n / S) < 10 := by
                rw [show (10 : ℚ) * (env.endTime n / S) = 10 * env.endTime n / S
                  by ring]
                nlinarith
              have h12 : env.endTime n / S < 1 := by linarith
              exact (div_lt_one hS).1 h12
            obtain ⟨ih1, ih2, ih3, ih4⟩ := ih (n + 1) st2 (by simp [hst2]; omega)
              (by simp [hst2]; omega)
            rw [← hrestdef] at ih1 ih2 ih3 ih4
            have hp2 : st2.percCount = pyInt (10 * env.endTime n / S) := rfl
            rw [hp2] at ih2 ih3
            refine ⟨?_, ?_, ?_, ?_⟩
            · rw [List.chain'_cons']
              refine ⟨?_, ih1⟩
              intro b hb
              have hbmem : b ∈ progressBs rest.2.1 := List.mem_of_mem_head? hb
              have hblo := (ih2 b hbmem).1
              rw [hxmin]
              have h5 : (100 : ℚ) * env.endTime n / S <
                  10 * ((pyInt (10 * env.endTime n / S) : ℚ) + 1) := by
                rw [hratio]; nlinarith
              linarith
            · intro x hx
              rcases List.mem_cons.1 hx with rfl | hx
              · exact ⟨hx1lo, min_le_right _ _⟩
              · obtain ⟨hlo, hhi⟩ := ih2 x hx
                refine ⟨?_, hhi⟩
                have h6 : 10 * ((st.percCount : ℚ) + 1) ≤
                    10 * ((pyInt (10 * env.endTime n / S) : ℚ) + 1) := by
                  linarith
                linarith
            · simp only [List.length_cons]
              omega
            · intro hkall hexit hlt
              have hd2 := ih4 hkall hexit hdlt
              have hne : progressBs rest.2.1 ≠ [] := by
                intro h0
                rw [h0] at hd2
                simp at hd2
              rw [show (min (100 * env.endTime n / S) 100 :: progressBs rest.2.1) =
                  [min (100 * env.endTime n / S) 100] ++ progressBs rest.2.1
                  from rfl]
              rw [List.getLast?_append_of_ne_nil _ hne]
              exact hd2
          · -- terminal crossing: the marker reached 10, time is up
            push_neg at hm9
            have hm10 : (10 : ℚ) ≤ (pyInt (10 * env.endTime n / S) : ℚ) := by
              exact_mod_cast hm9
            have hd_ge : S ≤ env.endTime n := by
              have h10 : (1 : ℚ) ≤ env.endTime n / S := by
                have h11 : (10 : ℚ) ≤ 10 * (env.endTime n / S) := by
                  rw [show (10 : ℚ) * (env.endTime n / S) = 10 * env.endTime n / S
                    by ring]
                  linarith
                linarith
              exact (one_le_div hS).1 h10
            have hrge : (100 : ℚ) ≤ 100 * env.endTime n / S := by
              rw [hratio]; linarith
            have hxmin : min (100 * env.endTime n / S) 100 = 100 :=
              min_eq_right hrge
            obtain ⟨hrest1, hrest2⟩ := loopGo_elapsed env ms (n + 1) f st2 hS hd_ge
            rw [← hrestdef] at hrest2
            rw [hrest2, hxmin]
            have hemp : progressBs ([] : List LogEntry) = [] := rfl
            rw [hemp]
            refine ⟨List.chain'_singleton 100, ?_, by simp, ?_⟩
            · intro x hx
              rcases List.mem_cons.1 hx with rfl | hx
              · exact ⟨by linarith, le_refl 100⟩
              · simp at hx
            · intro _ _ _
              rfl
        · -- no decile boundary crossed: no message this cycle
          rw [progressStep_nocross_bounded hSne (st.iteCount + 1) hcross]
          dsimp only
          set st2 : LoopSt := ⟨env.endTime n, st.iteCount + 1,
            st.percCount, st.minCount⟩ with hst2
          set rest := loopGo env ms S (n + 1) f st2 with hrestdef
          have hpb : progressBs ((lg ++ []) ++ rest.2.1) = progressBs rest.2.1 := by
            rw [progressBs_append, progressBs_append, hlgB]
            rfl
          rw [hpb]
          have hdlt : env.endTime n < S := by
            push_neg at hcross
            have h1 : 10 * env.endTime n / S < (st.percCount : ℚ) + 1 :=
              lt_of_pyInt_le hcross hp0
            have hp9q : (st.percCount : ℚ) ≤ 9 := by exact_mod_cast hp9
            have h10 : env.endTime n / S < 1 := by
              have h11 : 10 * (env.endTime n / S) < 10 := by
                rw [show (10 : ℚ) * (env.endTime n / S) = 10 * env.endTime n / S
                  by ring]
                linarith
              linarith
            exact (div_lt_one hS).1 h10
          obtain ⟨ih1, ih2, ih3, ih4⟩ := ih (n + 1) st2 hp0 hp9
          exact ⟨ih1, ih2, ih3, fun hkall hexit _ => ih4 hkall hexit hdlt⟩
    · rw [loopGo_stop env ms S n f st hc]
      refine ⟨by simp [progressBs], by simp [progressBs], by simp [progressBs], ?_⟩
      intro hkall _ hlt
      exact absurd ⟨Or.inr hlt, hkall n⟩ hc

/-- The inductive invariant behind C7: in an unbounded run segment with
`0 ≤ min_count`, the 5-minute window indices of the emitted unbounded
progress messages strictly increase, and every emitted stamp is
nonnegative with window index strictly above `min_count / 5`. -/
lemma loopGo_progressU_inv (env : Env) (ms : List Measurement)
    (hnn : ∀ k2, 0 ≤ env.endTime k2) :
    ∀ fuel n st, 0 ≤ st.minCount →
      List.Chain' (fun a b => a / 300 < b / 300)
        (progressUs (loopGo env ms 0 n fuel st).2.1) ∧
      (∀ s ∈ progressUs (loopGo env ms 0 n fuel st).2.1,
        0 ≤ s ∧ (st.minCount : ℚ) / 5 < ((s / 300 : ℤ) : ℚ)) := by
  intro fuel
  induction fuel with
  | zero => intro n st _; simp [loopGo, progressUs]
  | succ f ih =>
    intro n st hmc0
    by_cases hc : ((0 : ℚ) = 0 ∨ st.currDelta < 0) ∧ env.killed n = false
    · rcases hacq : acquireGo (env.outcome n) ms 0 with ⟨res, lg⟩
      have hlgU : progressUs lg = [] := by
        have h2 := acquire_no_progressU (env.outcome n) ms 0
        rw [hacq] at h2
        exact h2
      rcases res with _ | ⟨_ | ⟨r0, rs⟩⟩
      · constructor <;> simp [loopGo, hc, acquire, hacq, hlgU]
      · constructor <;> simp [loopGo, hc, acquire, hacq, hlgU]
      · rw [loopGo_row_step env ms 0 n f st r0 rs lg hc hacq]
        by_cases hcross : (st.minCount : ℚ) / 5 <
            (pyInt (env.endTime n / 300) : ℚ)
        · -- a 5-minute window boundary was crossed: one message is emitted
          rw [progressStep_cross_unbounded (st.iteCount + 1) hcross]
          dsimp only
          have hd0 : 0 ≤ env.endTime n := hnn n
          have hw300 : pyInt (env.endTime n / 300) = pyInt (env.endTime n) / 300 :=
            pyInt_div_of_nonneg hd0 (by norm_num)
          have hw60 : pyInt (env.endTime n / 60) = pyInt (env.endTime n) / 60 :=
            pyInt_div_of_nonneg hd0 (by norm_num)
          have hs0 : 0 ≤ pyInt (env.endTime n) := by
            rw [pyInt_of_nonneg hd0]
            exact Int.floor_nonneg.2 hd0
          have hmc2 : 0 ≤ pyInt (env.endTime n / 60) := by
            rw [hw60]
            exact Int.ediv_nonneg hs0 (by norm_num)
          have hkey : 5 * (pyInt (env.endTime n) / 300) ≤
              pyInt (env.endTime n) / 60 := by omega
          have hkeyq : ((pyInt (env.endTime n) / 300 : ℤ) : ℚ) ≤
              (pyInt (env.endTime n / 60) : ℚ) / 5 := by
            rw [hw60]
            have h5 : ((5 * (pyInt (env.endTime n) / 300) : ℤ) : ℚ) ≤
                ((pyInt (env.endTime n) / 60 : ℤ) : ℚ) := by exact_mod_cast hkey
            push_cast at h5 ⊢
            linarith
          set st2 : LoopSt := ⟨env.endTime n, st.iteCount + 1,
            st.percCount, pyInt (env.endTime n / 60)⟩ with hst2
          set rest := loopGo env ms 0 (n + 1) f st2 with hrestdef
          have hpu : progressUs ((lg ++ [(Severity.info,
              LogMsg.progressU (pyInt (env.endTime n)) (st.iteCount + 1))]) ++
              rest.2.1) =
              pyInt (env.endTime n) :: progressUs rest.2.1 := by
            rw [progressUs_append, progressUs_append, hlgU]
            simp [progressUs, isProgU]
          rw [hpu]
          obtain ⟨ih1, ih2⟩ := ih (n + 1) st2 hmc2
          rw [← hrestdef] at ih1 ih2
          have hmc2' : st2.minCount = pyInt (env.endTime n / 60) := rfl
          rw [hmc2'] at ih2
          constructor
          · rw [List.chain'_cons']
            refine ⟨?_, ih1⟩
            intro b hb
            have hbmem : b ∈ progressUs rest.2.1 := List.mem_of_mem_head? hb
            have hblo := (ih2 b hbmem).2
            have h6 : ((pyInt (env.endTime n) / 300 : ℤ) : ℚ) <
                ((b / 300 : ℤ) : ℚ) := lt_of_le_of_lt hkeyq hblo
            exact_mod_cast h6
          · intro s hs
            rcases List.mem_cons.1 hs with rfl | hs
            · refine ⟨hs0, ?_⟩
              rw [← hw300]
              exact hcross
            · obtain ⟨hs1, hs2⟩ := ih2 s hs
              refine ⟨hs1, ?_⟩
              have h7 : (st.minCount : ℚ) / 5 <
                  ((pyInt (env.endTime n) / 300 : ℤ) : ℚ) := by
                rw [← hw300]; exact hcross
              calc (st.minCount : ℚ) / 5
                  < ((pyInt (env.endTime n) / 300 : ℤ) : ℚ) := h7
                _ ≤ (pyInt (env.endTime n / 60) : ℚ) / 5 := hkeyq
                _ < ((s / 300 : ℤ) : ℚ) := hs2
        · -- still inside the current 5-minute window: no message
          rw [progressStep_nocross_unbounded (st.iteCount + 1) hcross]
          dsimp only
          set st2 : LoopSt := ⟨env.endTime n, st.iteCount + 1,
            st.percCount, st.minCount⟩ with hst2
          set rest := loopGo env ms 0 (n + 1) f st2 with hrestdef
          have hpu : progressUs ((lg ++ []) ++ rest.2.1) = progressUs rest.2.1 := by
            rw [progressUs_append, progressUs_append, hlgU]
            rfl
          rw [hpu]
          exact ih (n + 1) st2 hmc0
    · rw [loopGo_stop env ms 0 n f st hc]
      simp [progressUs]

/-- Counting lemma: a strictly increasing integer list whose members all
lie in `[lo, B]` has at most `B - lo + 1` members (or is empty). -/
lemma pairwise_between_length :
    ∀ (ws : List ℤ) (lo B : ℤ), List.Pairwise (· < ·) ws →
      (∀ w ∈ ws, lo ≤ w ∧ w ≤ B) →
      (ws.length : ℤ) ≤ B - lo + 1 ∨ ws = [] := by
  intro ws
  induction ws with
  | nil => intro lo B _ _; exact Or.inr rfl
  | cons w t ih =>
    intro lo B hp hb
    obtain ⟨hw1, hw2⟩ := hb w (List.mem_cons_self w t)
    have hhd : ∀ v ∈ t, w < v := (List.pairwise_cons.1 hp).1
    have hpt : List.Pairwise (· < ·) t := (List.pairwise_cons.1 hp).2
    have ht := ih (w + 1) B hpt (fun v hv =>
      ⟨by have := hhd v hv; omega, (hb v (List.mem_cons_of_mem w hv)).2⟩)
    left
    rcases ht with ht | ht
    · simp only [List.length_cons]
      push_cast at ht ⊢
      omega
    · subst ht
      simp only [List.length_cons, List.length_nil]
      push_cast
      omega

/-! ## Facts about setup -/

lemma resolveInstrument_ok_of {s : String}
    (h : s = "dmm6500" ∨ s = "keithley485" ∨ s = "fluke3000" ∨ s = "virtual") :
    ∃ k, resolveInstrument s = Except.ok k := by
  rcases h with h | h | h | h
  · exact ⟨InstrumentKind.dmm6500, by simp [resolveInstrument, h]⟩
  · exact ⟨InstrumentKind.keithley485, by simp [resolveInstrument, h]⟩
  · exact ⟨InstrumentKind.fluke3000, by simp [resolveInstrument, h]⟩
  · exact ⟨InstrumentKind.virtual, by simp [resolveInstrument, h]⟩

lemma resolveQuantity_ok_of {s : String}
    (h : s = "current" ∨ s = "voltage" ∨ s = "temperature" ∨ s = "virtual") :
    ∃ k, resolveQuantity s = Except.ok k := by
  rcases h with h | h | h | h
  · exact ⟨QuantityMode.current_dc, by simp [resolveQuantity, h]⟩
  · exact ⟨QuantityMode.voltage_dc, by simp [resolveQuantity, h]⟩
  · exact ⟨QuantityMode.temperature, by simp [resolveQuantity, h]⟩
  · exact ⟨QuantityMode.default, by simp [resolveQuantity, h]⟩

lemma resolveProtocol_ok_of {s : String}
    (h : s = "usbtmc" ∨ s = "serial" ∨ s = "gpib" ∨ s = "virtual") :
    resolveProtocol s = Except.ok () := by
  rcases h with h | h | h | h <;> simp [resolveProtocol, h]

lemma setupMeasure_err_of {c : MeasureCfg} (h : ¬ cfgRecognized c) :
    ∃ e, setupMeasure c = Except.error e := by
  by_cases hA : c.instrument = "dmm6500" ∨ c.instrument = "keithley485"
      ∨ c.instrument = "fluke3000" ∨ c.instrument = "virtual"
  · obtain ⟨inst, hinst⟩ := resolveInstrument_ok_of hA
    by_cases hB : c.quantity = "current" ∨ c.quantity = "voltage"
        ∨ c.quantity = "temperature" ∨ c.quantity = "virtual"
    · obtain ⟨meas, hmeas⟩ := resolveQuantity_ok_of hB
      by_cases hC : c.protocol = "usbtmc" ∨ c.protocol = "serial"
          ∨ c.protocol = "gpib" ∨ c.protocol = "virtual"
      · exact absurd ⟨hA, hB, hC⟩ h
      · push_neg at hC
        refine ⟨"Protocol not supported: " ++ c.protocol, ?_⟩
        simp [setupMeasure, hinst, hmeas, resolveProtocol,
          hC.1, hC.2.1, hC.2.2.1, hC.2.2.2]
    · push_neg at hB
      refine ⟨"Quantity not supported: " ++ c.quantity, ?_⟩
      simp [setupMeasure, hinst, resolveQuantity, hB.1, hB.2.1, hB.2.2.1, hB.2.2.2]
  · push_neg at hA
    refine ⟨"Instrument not supported: " ++ c.instrument, ?_⟩
    simp [setupMeasure, resolveInstrument, hA.1, hA.2.1, hA.2.2.1, hA.2.2.2]

lemma setupAll_err_of {cfgs : List MeasureCfg}
    (h : ∃ c ∈ cfgs, ¬ cfgRecognized c) :
    ∃ e, setupAll cfgs = Except.error e := by
  induction cfgs with
  | nil => obtain ⟨c, hc, _⟩ := h; simp at hc
  | cons c rest ih =>
    obtain ⟨c2, hc2, hbad⟩ := h
    rcases List.mem_cons.1 hc2 with rfl | hmem
    · obtain ⟨e, he⟩ := setupMeasure_err_of hbad
      exact ⟨e, by simp [setupAll, he]⟩
    · cases hsm : setupMeasure c with
      | error e => exact ⟨e, by simp [setupAll, hsm]⟩
      | ok m =>
        obtain ⟨e, he⟩ := ih ⟨c2, hmem, hbad⟩
        exact ⟨e, by simp [setupAll, hsm, he]⟩

/-! ## The claims -/

/-- Claim C1: if, during some cycle, one channel's read fails 5
consecutive times, `acquire` returns no readings for that cycle (the
already-acquired readings of earlier channels are discarded), no row is
written for that cycle or any later one, and the loop terminates through
the `break` branch. -/
theorem daq_C1_retry_exhaustion_aborts (env : Env) (ms : List Measurement)
    (S : ℚ) (n fuel : ℕ) (st : LoopSt)
    (hcond : (S = 0 ∨ st.currDelta < S) ∧ env.killed n = false)
    (hf : 0 < fuel)
    (hfail : ∃ i, i < ms.length ∧ ∀ a < 5, env.outcome n i a = none) :
    (acquire (env.outcome n) ms).1 = none ∧
    (loopGo env ms S n fuel st).1 = [] ∧
    (loopGo env ms S n fuel st).2.2 = ExitKind.broke := by
  obtain ⟨i, hi, hall⟩ := hfail
  have hnone : (acquireGo (env.outcome n) ms 0).1 = none :=
    acquire_none_of_allfail (env.outcome n) ms 0 i hi (by simpa using hall)
  obtain ⟨f, rfl⟩ : ∃ f, fuel = f + 1 := ⟨fuel - 1, by omega⟩
  rcases hacq : acquireGo (env.outcome n) ms 0 with ⟨res, lg⟩
  have hres : res = none := by rw [hacq] at hnone; exact hnone
  subst hres
  refine ⟨by rw [acquire, hacq], ?_, ?_⟩ <;>
    simp [loopGo, hcond, acquire, hacq]

/-- Witness for C1 at a concrete input: a single channel whose reads
always fail, inside an unbounded, un-killed cycle 0. -/
theorem daq_C1_witness :
    (((0 : ℚ) = 0 ∨ (LoopSt.mk 0 0 0 0).currDelta < 0) ∧ allFailEnv.killed 0 = false) ∧
    0 < 1 ∧ (∃ i, i < [virtualMeas].length ∧ ∀ a < 5, allFailEnv.outcome 0 i a = none) ∧
    ((acquire (allFailEnv.outcome 0) [virtualMeas]).1 = none ∧
      (loopGo allFailEnv [virtualMeas] 0 0 1 ⟨0, 0, 0, 0⟩).1 = [] ∧
      (loopGo allFailEnv [virtualMeas] 0 0 1 ⟨0, 0, 0, 0⟩).2.2 = ExitKind.broke) :=
  ⟨⟨Or.inl rfl, rfl⟩, Nat.one_pos, ⟨0, by norm_num, fun a _ => rfl⟩,
    daq_C1_retry_exhaustion_aborts allFailEnv [virtualMeas] 0 0 1 ⟨0, 0, 0, 0⟩
      ⟨Or.inl rfl, rfl⟩ Nat.one_pos ⟨0, by norm_num, fun a _ => rfl⟩⟩

/-- Claim C2: a channel that fails fewer than 5 consecutive times within a
cycle and then succeeds contributes `scale * instrument.measure(quantity)`
to that cycle's row; the row is written normally, and the failures appear
only as error-severity log entries. -/
theorem daq_C2_retries_absorbed (env : Env) (ms : List Measurement)
    (S : ℚ) (n fuel : ℕ) (st : LoopSt) (kf : ℕ → ℕ) (v : ℕ → ℚ)
    (hms : ms ≠ [])
    (hro : ∀ j < ms.length, kf j < 5 ∧ (∀ a < kf j, env.outcome n j a = none) ∧
      env.outcome n j (kf j) = some (v j))
    (hcond : (S = 0 ∨ st.currDelta < S) ∧ env.killed n = false)
    (hf : 0 < fuel) :
    (acquire (env.outcome n) ms).1 = some (readingsOf ms v) ∧
    (∀ e ∈ (acquire (env.outcome n) ms).2,
      e.1 = Severity.error ∧ ∃ nm, e.2 = LogMsg.failedRead nm) ∧
    ∃ rest, (loopGo env ms S n fuel st).1 =
      (env.rowTime n :: readingsOf ms v) :: rest := by
  have hfst : (acquireGo (env.outcome n) ms 0).1 = some (readingsOf ms v) := by
    apply acquire_retry_ok (env.outcome n) ms 0 kf v
    intro j hj
    simpa using hro j hj
  refine ⟨by rw [acquire]; exact hfst, ?_, ?_⟩
  · intro e he
    exact acquire_some_logs (env.outcome n) ms 0 (readingsOf ms v) hfst e he
  · obtain ⟨f, rfl⟩ : ∃ f, fuel = f + 1 := ⟨fuel - 1, by omega⟩
    rcases hms2 : ms with _ | ⟨m, ms'⟩
    · exact absurd hms2 hms
    · subst hms2
      rcases hacq : acquireGo (env.outcome n) (m :: ms') 0 with ⟨res, lg⟩
      have hres : res = some (m.scale * v 0 :: readingsOf ms' (fun j => v (j + 1))) := by
        rw [hacq] at hfst
        simpa [readingsOf] using hfst
      subst hres
      refine ⟨(loopGo env (m :: ms') S (n + 1) f
        ⟨env.endTime n, st.iteCount + 1,
          (progressStep S (env.endTime n) (st.iteCount + 1) st.percCount st.minCount).1,
          (progressStep S (env.endTime n) (st.iteCount + 1) st.percCount st.minCount).2.1⟩).1, ?_⟩
      simp [loopGo, hcond, acquire, hacq, readingsOf]

/-- Witness for C2 at a concrete input: one channel failing twice and then
succeeding with raw value 7 and scale 1. -/
theorem daq_C2_witness :
    [virtualMeas] ≠ [] ∧
    (∀ j < [virtualMeas].length, 2 < 5 ∧
      (∀ a < 2, retryEnv.outcome 0 j a = none) ∧
      retryEnv.outcome 0 j 2 = some 7) ∧
    (((0 : ℚ) = 0 ∨ (LoopSt.mk 0 0 0 0).currDelta < 0) ∧ retryEnv.killed 0 = false) ∧
    0 < 1 ∧
    ((acquire (retryEnv.outcome 0) [virtualMeas]).1 =
        some (readingsOf [virtualMeas] (fun _ => 7)) ∧
      (∀ e ∈ (acquire (retryEnv.outcome 0) [virtualMeas]).2,
        e.1 = Severity.error ∧ ∃ nm, e.2 = LogMsg.failedRead nm) ∧
      ∃ rest, (loopGo retryEnv [virtualMeas] 0 0 1 ⟨0, 0, 0, 0⟩).1 =
        (retryEnv.rowTime 0 :: readingsOf [virtualMeas] (fun _ => 7)) :: rest) := by
  have hro : ∀ j < [virtualMeas].length, (fun _ => 2 : ℕ → ℕ) j < 5 ∧
      (∀ a < (fun _ => 2 : ℕ → ℕ) j, retryEnv.outcome 0 j a = none) ∧
      retryEnv.outcome 0 j ((fun _ => 2 : ℕ → ℕ) j) = some ((fun _ => 7 : ℕ → ℚ) j) := by
    intro j _
    refine ⟨by norm_num, ?_, by simp [retryEnv]⟩
    intro a ha
    simp [retryEnv, ha]
  exact ⟨by simp, hro, ⟨Or.inl rfl, rfl⟩, Nat.one_pos,
    daq_C2_retries_absorbed retryEnv [virtualMeas] 0 0 1 ⟨0, 0, 0, 0⟩
      (fun _ => 2) (fun _ => 7) (by simp) hro ⟨Or.inl rfl, rfl⟩ Nat.one_pos⟩

/-- Counterexample to claim C3 as stated: a run aborted by retry
exhaustion (exit kind `broke`, after the fatal log of `acquire`) still
ends with the interpreter's success status and the very same terminal log
message as a normal completion — the code has no failure exit path. -/
theorem daq_C3_counterexample :
    (runDAQ allFailEnv [virtualMeas] 0 2).exit = ExitKind.broke ∧
    (runDAQ allFailEnv [virtualMeas] 0 2).exitSuccess = true ∧
    (runDAQ allFailEnv [virtualMeas] 0 2).log.getLast? =
      some (Severity.info, LogMsg.msg "Closing DAQ output file") ∧
    (runDAQ stopEnv [virtualMeas] 0 2).exit = ExitKind.normal ∧
    (runDAQ stopEnv [virtualMeas] 0 2).exitSuccess = true ∧
    (runDAQ stopEnv [virtualMeas] 0 2).log.getLast? =
      some (Severity.info, LogMsg.msg "Closing DAQ output file") := by
  refine ⟨?_, rfl, ?_, ?_, rfl, ?_⟩ <;>
    simp [runDAQ, loopGo, allFailEnv, stopEnv, virtualMeas, acquire, acquireGo,
      channelRead, maxFails, progressStep]

/-- Claim C3 as amended: whenever the loop finishes (retry-exhaustion
abort or normal completion alike), the output file is closed and the
process exits with success status and the same terminal log message; the
abort is distinguished only by the fatal-severity entry that `acquire`
logged when it gave up. -/
theorem daq_C3_amended_same_exit (env : Env) (ms : List Measurement)
    (S : ℚ) (fuel : ℕ)
    (h : (runDAQ env ms S fuel).exit ≠ ExitKind.fuelOut) :
    (runDAQ env ms S fuel).closed = true ∧
    (runDAQ env ms S fuel).exitSuccess = true ∧
    (runDAQ env ms S fuel).log.getLast? =
      some (Severity.info, LogMsg.msg "Closing DAQ output file") ∧
    (∀ out, (acquire out ms).1 = none →
      (Severity.fatal, LogMsg.tooManyFails) ∈ (acquire out ms).2) := by
  have hgo : (loopGo env ms S 0 fuel ⟨0, 0, 0, 0⟩).2.2 ≠ ExitKind.fuelOut := by
    simpa [runDAQ] using h
  refine ⟨by simp [runDAQ, if_neg hgo], rfl, ?_, ?_⟩
  · simp only [runDAQ, if_neg hgo]
    rw [List.getLast?_append_of_ne_nil _ (by simp)]
    rfl
  · intro out hnone
    rw [acquire] at hnone ⊢
    exact acquire_none_fatal out ms 0 hnone

/-- Witness for the amended C3 at a concrete input: the all-failing run
of the C3 counterexample indeed finished its loop. -/
theorem daq_C3_witness :
    (runDAQ allFailEnv [virtualMeas] 0 2).exit ≠ ExitKind.fuelOut ∧
    ((runDAQ allFailEnv [virtualMeas] 0 2).closed = true ∧
      (runDAQ allFailEnv [virtualMeas] 0 2).exitSuccess = true ∧
      (runDAQ allFailEnv [virtualMeas] 0 2).log.getLast? =
        some (Severity.info, LogMsg.msg "Closing DAQ output file") ∧
      (∀ out, (acquire out [virtualMeas]).1 = none →
        (Severity.fatal, LogMsg.tooManyFails) ∈ (acquire out [virtualMeas]).2)) := by
  have hx : (runDAQ allFailEnv [virtualMeas] 0 2).exit ≠ ExitKind.fuelOut := by
    simp [runDAQ, loopGo, allFailEnv, virtualMeas, acquire, acquireGo,
      channelRead, maxFails, progressStep]
  exact ⟨hx, daq_C3_amended_same_exit allFailEnv [virtualMeas] 0 2 hx⟩

/-- Claim C4: for every run, the output header is `time` followed by one
`name [unit]` column per channel in configuration order, and every data
row has exactly `1 + channel_count` values. -/
theorem daq_C4_header_and_row_shape (env : Env) (ms : List Measurement)
    (S : ℚ) (fuel : ℕ) :
    (runDAQ env ms S fuel).header =
      "time" :: ms.map (fun m => m.name ++ " [" ++ m.unit ++ "]") ∧
    ∀ r ∈ (runDAQ env ms S fuel).rows, r.length = 1 + ms.length := by
  refine ⟨rfl, ?_⟩
  intro r hr
  exact loopGo_row_lengths env ms S fuel 0 ⟨0, 0, 0, 0⟩ r hr

/-- Claim C5: the stop flag is monotone and the handler does nothing but
set it (repeated signals are idempotent); once the flag is observed set at
the check before cycle `n+1`, at most the `n+1` rows of cycles `0..n` are
ever written (at most one of them after the flag was raised), the loop
stops within one cycle, and the output file is closed with complete rows
only. -/
theorem daq_C5_stop_within_cycle (env : Env) (ms : List Measurement)
    (S : ℚ) (fuel n : ℕ)
    (hmono : ∀ i j, i ≤ j → env.killed i = true → env.killed j = true)
    (hk : env.killed (n + 1) = true) :
    (∀ (k : Killer) (s f s2 f2 : ℕ),
      (Killer.exit k s f).kill_now = true ∧
      Killer.exit (Killer.exit k s f) s2 f2 = Killer.exit k s f ∧
      Killer.init.kill_now = false) ∧
    (runDAQ env ms S fuel).rows.length ≤ n + 1 ∧
    (n + 1 < fuel →
      (runDAQ env ms S fuel).exit ≠ ExitKind.fuelOut ∧
      (runDAQ env ms S fuel).closed = true) ∧
    (∀ r ∈ (runDAQ env ms S fuel).rows, r.length = 1 + ms.length) := by
  obtain ⟨h1, h2⟩ :=
    loopGo_killed_bound env ms S hmono (n + 1) hk fuel 0 ⟨0, 0, 0, 0⟩
  refine ⟨fun k s f s2 f2 => ⟨rfl, rfl, rfl⟩, ?_, ?_, ?_⟩
  · simpa [runDAQ] using h1
  · intro hfuel
    have h3 : (loopGo env ms S 0 fuel ⟨0, 0, 0, 0⟩).2.2 ≠ ExitKind.fuelOut :=
      h2 (by omega)
    exact ⟨by simpa [runDAQ] using h3, by simp [runDAQ, if_neg h3]⟩
  · intro r hr
    exact loopGo_row_lengths env ms S fuel 0 ⟨0, 0, 0, 0⟩ r hr

/-- Witness for C5 at a concrete input: the flag is observed set from
cycle 1 onward; with fuel 3 the run writes at most one row and closes. -/
theorem daq_C5_witness :
    (∀ i j, i ≤ j → killEnv.killed i = true → killEnv.killed j = true) ∧
    killEnv.killed 1 = true ∧
    ((∀ (k : Killer) (s f s2 f2 : ℕ),
      (Killer.exit k s f).kill_now = true ∧
      Killer.exit (Killer.exit k s f) s2 f2 = Killer.exit k s f ∧
      Killer.init.kill_now = false) ∧
    (runDAQ killEnv [virtualMeas] 0 3).rows.length ≤ 1 ∧
    (1 < 3 →
      (runDAQ killEnv [virtualMeas] 0 3).exit ≠ ExitKind.fuelOut ∧
      (runDAQ killEnv [virtualMeas] 0 3).closed = true) ∧
    (∀ r ∈ (runDAQ killEnv [virtualMeas] 0 3).rows, r.length = 1 + [virtualMeas].length)) := by
  have hmono : ∀ i j, i ≤ j → killEnv.killed i = true → killEnv.killed j = true := by
    intro i j hij hi
    simp only [killEnv, decide_eq_true_eq] at hi ⊢
    omega
  exact ⟨hmono, rfl,
    daq_C5_stop_within_cycle killEnv [virtualMeas] 0 3 0 hmono rfl⟩

/-- Claim C6: for a bounded run (`sampling_time` nonzero, here positive
as durations are), the bounded progress reports have strictly increasing
reported percentages (one per decile crossing), never number more than
10, each is capped at 100%, and if the run ends because the duration
elapsed (never killed, guard turned false) the final report is 100%. -/
theorem daq_C6_bounded_progress (env : Env) (ms : List Measurement)
    (S : ℚ) (fuel : ℕ) (hS : 0 < S) :
    List.Chain' (· < ·) (progressBs (runDAQ env ms S fuel).log) ∧
    (progressBs (runDAQ env ms S fuel).log).length ≤ 10 ∧
    (∀ x ∈ progressBs (runDAQ env ms S fuel).log, x ≤ 100) ∧
    ((∀ k2, env.killed k2 = false) →
      (runDAQ env ms S fuel).exit = ExitKind.normal →
      (progressBs (runDAQ env ms S fuel).log).getLast? = some 100) := by
  have hlog : progressBs (runDAQ env ms S fuel).log =
      progressBs (loopGo env ms S 0 fuel ⟨0, 0, 0, 0⟩).2.1 := by
    simp only [runDAQ]
    rw [progressBs_append]
    by_cases hgo : (loopGo env ms S 0 fuel ⟨0, 0, 0, 0⟩).2.2 = ExitKind.fuelOut
    · simp [hgo, progressBs]
    · simp [hgo, progressBs, isProgB]
  have hexit : (runDAQ env ms S fuel).exit =
      (loopGo env ms S 0 fuel ⟨0, 0, 0, 0⟩).2.2 := rfl
  obtain ⟨h1, h2, h3, h4⟩ :=
    loopGo_progressB_inv env ms hS fuel 0 ⟨0, 0, 0, 0⟩ le_rfl (by norm_num)
  rw [hlog, hexit]
  refine ⟨h1, by simpa using h3, fun x hx => (h2 x hx).2, ?_⟩
  intro hkall hex
  exact h4 hkall hex (by simpa using hS)

/-- Witness for C6 at a concrete input: duration 1 s, one second per
cycle — the run emits exactly one report, of 100%, and exits normally. -/
theorem daq_C6_witness :
    (0 : ℚ) < 1 ∧ (∀ k2, okEnv.killed k2 = false) ∧
    (runDAQ okEnv [virtualMeas] 1 2).exit = ExitKind.normal ∧
    (List.Chain' (· < ·) (progressBs (runDAQ okEnv [virtualMeas] 1 2).log) ∧
      (progressBs (runDAQ okEnv [virtualMeas] 1 2).log).length ≤ 10 ∧
      (∀ x ∈ progressBs (runDAQ okEnv [virtualMeas] 1 2).log, x ≤ 100) ∧
      (progressBs (runDAQ okEnv [virtualMeas] 1 2).log).getLast? = some 100) := by
  have hex : (runDAQ okEnv [virtualMeas] 1 2).exit = ExitKind.normal := by
    norm_num [runDAQ, loopGo, okEnv, virtualMeas, acquire, acquireGo,
      channelRead, maxFails, progressStep, pyInt]
  have ht := daq_C6_bounded_progress okEnv [virtualMeas] 1 2 (by norm_num)
  exact ⟨by norm_num, fun _ => rfl, hex,
    ht.1, ht.2.1, ht.2.2.1, ht.2.2.2 (fun _ => rfl) hex⟩

/-- Counterexample to claim C7 as stated: with a single 1200-second cycle
in an unbounded run, only one progress message has been emitted by elapsed
time E = 1200, while `floor(E / 300) = 4` — the message count equals the
number of window boundaries observed at cycle ends, not elapsed time over
300. -/
theorem daq_C7_counterexample :
    (progressUs (runDAQ sparseEnv [virtualMeas] 0 3).log).length = 1 ∧
    (1200 : ℤ) / 300 = 4 ∧
    ((progressUs (runDAQ sparseEnv [virtualMeas] 0 3).log).length : ℤ) ≠
      (1200 : ℤ) / 300 := by
  have h : (progressUs (runDAQ sparseEnv [virtualMeas] 0 3).log).length = 1 := by
    norm_num [runDAQ, loopGo, sparseEnv, virtualMeas, acquire, acquireGo,
      channelRead, maxFails, progressStep, pyInt, progressUs, isProgU]
    decide
  refine ⟨h, by norm_num, ?_⟩
  rw [h]
  norm_num

/-- Claim C7 as amended: in an unbounded run the unbounded progress
messages fall in strictly increasing 5-minute windows (so at most one
message per window), every message carries at least 300 s of elapsed
time, and the number of messages emitted by any elapsed time `E` that
bounds all the message stamps is at most `floor(E / 300)` — with equality
not guaranteed, since windows are only sampled at cycle ends. -/
theorem daq_C7_window_progress (env : Env) (ms : List Measurement)
    (fuel : ℕ) (hnn : ∀ k2, 0 ≤ env.endTime k2) :
    List.Chain' (fun a b => a / 300 < b / 300)
      (progressUs (runDAQ env ms 0 fuel).log) ∧
    (∀ s ∈ progressUs (runDAQ env ms 0 fuel).log, 300 ≤ s) ∧
    (∀ E : ℤ, 0 ≤ E →
      (∀ s ∈ progressUs (runDAQ env ms 0 fuel).log, s ≤ E) →
      ((progressUs (runDAQ env ms 0 fuel).log).length : ℤ) ≤ E / 300) := by
  have hlog : progressUs (runDAQ env ms 0 fuel).log =
      progressUs (loopGo env ms 0 0 fuel ⟨0, 0, 0, 0⟩).2.1 := by
    simp only [runDAQ]
    rw [progressUs_append]
    by_cases hgo : (loopGo env ms 0 0 fuel ⟨0, 0, 0, 0⟩).2.2 = ExitKind.fuelOut
    · simp [hgo, progressUs]
    · simp [hgo, progressUs, isProgU]
  obtain ⟨h1, h2⟩ := loopGo_progressU_inv env ms hnn fuel 0 ⟨0, 0, 0, 0⟩ le_rfl
  rw [hlog]
  have h300 : ∀ s ∈ progressUs (loopGo env ms 0 0 fuel ⟨0, 0, 0, 0⟩).2.1,
      300 ≤ s := by
    intro s hs
    obtain ⟨hs0, hsw⟩ := h2 s hs
    have hw1 : 1 ≤ s / 300 := by
      have h3 : (0 : ℚ) < ((s / 300 : ℤ) : ℚ) := by
        have h4 : ((0 : ℤ) : ℚ) / 5 = 0 := by norm_num
        simpa [h4] using hsw
      have h5 : (0 : ℤ) < s / 300 := by exact_mod_cast h3
      omega
    omega
  refine ⟨h1, h300, ?_⟩
  intro E hE hbound
  set es := progressUs (loopGo env ms 0 0 fuel ⟨0, 0, 0, 0⟩).2.1 with hes
  have hmapchain : List.Chain' (· < ·) (es.map (· / 300)) := by
    rw [List.chain'_map]
    exact h1
  have hpw : List.Pairwise (· < ·) (es.map (· / 300)) :=
    List.chain'_iff_pairwise.1 hmapchain
  have hbounds : ∀ w ∈ es.map (· / 300), 1 ≤ w ∧ w ≤ E / 300 := by
    intro w hw
    obtain ⟨s, hsmem, rfl⟩ := List.mem_map.1 hw
    constructor
    · have := h300 s hsmem
      omega
    · exact Int.ediv_le_ediv (by norm_num) (hbound s hsmem)
  have hlen := pairwise_between_length (es.map (· / 300)) 1 (E / 300) hpw hbounds
  rcases hlen with hlen | hlen
  · rw [List.length_map] at hlen
    omega
  · have : es = [] := List.map_eq_nil_iff.1 hlen
    rw [this]
    simp
    exact Int.ediv_nonneg hE (by norm_num)

/-- Witness for the amended C7 at a concrete input: 350-second cycles,
stopped during cycle 2, give messages at 350 s and 700 s — windows 1 and
2, both at least 300 s, and 2 messages by time 700 with
`floor(700/300) = 2`. -/
theorem daq_C7_witness :
    (∀ k2, 0 ≤ windowEnv.endTime k2) ∧
    progressUs (runDAQ windowEnv [virtualMeas] 0 4).log = [350, 700] ∧
    (List.Chain' (fun a b => a / 300 < b / 300)
        (progressUs (runDAQ windowEnv [virtualMeas] 0 4).log) ∧
      (∀ s ∈ progressUs (runDAQ windowEnv [virtualMeas] 0 4).log, 300 ≤ s) ∧
      (∀ E : ℤ, 0 ≤ E →
        (∀ s ∈ progressUs (runDAQ windowEnv [virtualMeas] 0 4).log, s ≤ E) →
        ((progressUs (runDAQ windowEnv [virtualMeas] 0 4).log).length : ℤ) ≤
          E / 300)) := by
  have hnn : ∀ k2, 0 ≤ windowEnv.endTime k2 := by
    intro k2
    show (0 : ℚ) ≤ 350 * ((k2 : ℚ) + 1)
    positivity
  refine ⟨hnn, ?_, daq_C7_window_progress windowEnv [virtualMeas] 4 hnn⟩
  norm_num [runDAQ, loopGo, windowEnv, virtualMeas, acquire, acquireGo,
    channelRead, maxFails, progressStep, pyInt, progressUs, isProgU]
  decide

/-- Claim C8: an unrecognized instrument, quantity, or protocol string in
the configuration makes setup raise before the loop starts (the program
produces an error and writes no rows), and with a fully recognized setup
the loop never produces such an error, whatever the instruments do. -/
theorem daq_C8_setup_fail_fast (env : Env) (cfgs : List MeasureCfg)
    (S : ℚ) (fuel : ℕ) :
    ((∃ c ∈ cfgs, ¬ cfgRecognized c) →
      ∃ e, program env cfgs S fuel = Except.error e) ∧
    (∀ ms, setupAll cfgs = Except.ok ms →
      program env cfgs S fuel = Except.ok (runDAQ env ms S fuel)) := by
  constructor
  · intro h
    obtain ⟨e, he⟩ := setupAll_err_of h
    exact ⟨e, by simp [program, he, Except.map]⟩
  · intro ms h
    simp [program, h, Except.map]

/-- Witness for C8 at a concrete input: a configuration naming the
unsupported instrument `hp34401a` makes the program error out. -/
theorem daq_C8_witness :
    (∃ c ∈ [badCfg], ¬ cfgRecognized c) ∧
    ∃ e, program okEnv [badCfg] 0 1 = Except.error e := by
  have hbad : ∃ c ∈ [badCfg], ¬ cfgRecognized c := by
    refine ⟨badCfg, by simp, ?_⟩
    intro h
    rcases h.1 with h1 | h1 | h1 | h1 <;> simp [badCfg] at h1
  exact ⟨hbad, (daq_C8_setup_fail_fast okEnv [badCfg] 0 1).1 hbad⟩

/-- Claim C9: with zero configured channels, `acquire` returns the empty
list, which the loop's `if not readings` test conflates with the fatal
`None`: the run ends immediately through the same `break` branch as a
retry-exhaustion abort, with zero data rows, though no read ever failed. -/
theorem daq_C9_empty_config_aborts (env : Env) (S : ℚ) (fuel : ℕ)
    (hf : 0 < fuel) (hS : S = 0 ∨ (0 : ℚ) < S) (hk : env.killed 0 = false) :
    acquire (env.outcome 0) [] = (some [], []) ∧
    (runDAQ env [] S fuel).rows = [] ∧
    (runDAQ env [] S fuel).exit = ExitKind.broke ∧
    (runDAQ env [] S fuel).closed = true := by
  obtain ⟨f, rfl⟩ : ∃ f, fuel = f + 1 := ⟨fuel - 1, by omega⟩
  have hc : (S = 0 ∨ (LoopSt.mk 0 0 0 0).currDelta < S) ∧ env.killed 0 = false := by
    refine ⟨?_, hk⟩
    rcases hS with h | h
    · exact Or.inl h
    · exact Or.inr (by simpa using h)
  have hgo : loopGo env [] S 0 (f + 1) ⟨0, 0, 0, 0⟩ = ([], [], ExitKind.broke) := by
    simp [loopGo, hc, acquire, acquireGo]
  exact ⟨rfl, by simp [runDAQ, hgo], by simp [runDAQ, hgo], by simp [runDAQ, hgo]⟩

/-- Witness for C9 at a concrete input. -/
theorem daq_C9_witness :
    0 < 1 ∧ ((0 : ℚ) = 0 ∨ (0 : ℚ) < 0) ∧ okEnv.killed 0 = false ∧
    (acquire (okEnv.outcome 0) [] = (some [], []) ∧
      (runDAQ okEnv [] 0 1).rows = [] ∧
      (runDAQ okEnv [] 0 1).exit = ExitKind.broke ∧
      (runDAQ okEnv [] 0 1).closed = true) :=
  ⟨Nat.one_pos, Or.inl rfl, rfl,
    daq_C9_empty_config_aborts okEnv 0 1 Nat.one_pos (Or.inl rfl) rfl⟩

/-- Claim C10: a command-line override of `0` (or an absent one) for the
sampling duration or refresh rate is ignored because the override is
tested for truthiness, so the configuration file's value is used and a
nonzero configured value can never be forced to zero from the command
line. -/
theorem daq_C10_zero_override_ignored (c : ℚ) (o : Option ℚ) (hc : c ≠ 0) :
    resolveParam c (some 0) = c ∧ resolveParam c none = c ∧
    resolveParam c o ≠ 0 ∧ (∀ a : ℚ, a ≠ 0 → resolveParam c (some a) = a) := by
  refine ⟨by simp [resolveParam, pyTruthy], rfl, ?_, ?_⟩
  · cases o with
    | none => simpa [resolveParam, pyTruthy] using hc
    | some a =>
      by_cases ha : a = 0
      · subst ha
        simpa [resolveParam, pyTruthy] using hc
      · simp [resolveParam, pyTruthy, ha]
  · intro a ha
    simp [resolveParam, pyTruthy, ha]

/-- Witness for C10 at a concrete input: configured value 10, override 0. -/
theorem daq_C10_witness :
    (10 : ℚ) ≠ 0 ∧
    (resolveParam 10 (some 0) = 10 ∧ resolveParam 10 none = 10 ∧
      resolveParam 10 (some 0) ≠ 0 ∧
      (∀ a : ℚ, a ≠ 0 → resolveParam 10 (some a) = a)) :=
  ⟨by norm_num, daq_C10_zero_override_ignored 10 (some 0) (by norm_num)⟩

end KaptonDaq
